import Mathlib

/-!
# TCPServer / TCPClient: framing, reassembly and connection bookkeeping

A shallow embedding of

* `ClientConnection::sendPayload`, `ClientConnection::onReadyRead`
  (`TCPClient/clientconnection.cpp`),
* `ClientHandler::start`, `onReadyRead`, `emitDisconnected`, `onDisconnected`,
  `onError`, `sendToClient` (`TCPServer/clienthandler.cpp`),
* `Server::incomingConnection`, `onClientDisconnected`, `shutdown`, `~Server`
  (`TCPServer/server.cpp`),

together with the part of Qt's `QDataStream` (version `Qt_5_9`, big-endian) and
`QBuffer` that these functions call.  Bytes are `Fin 256`, UTF-16 code units are
`Fin 65536`, every other machine integer is a `Nat` reduced explicitly where the
C++ type narrows it.
-/

set_option autoImplicit false

namespace TcpFraming

/-! ## Bytes, code units and strings -/

/-- One octet. -/
abbrev Byte := Fin 256

/-- One UTF-16 code unit, the content of a `QChar`. -/
abbrev QChar := Fin 65536

/-- The low eight bits of a number, as an octet. -/
def byte (n : Nat) : Byte := ⟨n % 256, Nat.mod_lt _ (by decide)⟩

/-- The low sixteen bits of a number, as a code unit. -/
def qchar (n : Nat) : QChar := ⟨n % 65536, Nat.mod_lt _ (by decide)⟩

/-- A `QString`: either the null string or a (possibly empty) sequence of UTF-16
code units.  `QDataStream` distinguishes the two on the wire. -/
inductive QString where
  | null : QString
  | str (units : List QChar) : QString
  deriving DecidableEq, Repr

/-- Number of UTF-16 code units, `QString::length()`. -/
def QString.length : QString → Nat
  | .null => 0
  | .str us => us.length

/-- The code units of a string (none for the null string). -/
def QString.units : QString → List QChar
  | .null => []
  | .str us => us

/-- Big-endian value of a byte sequence. -/
def beValue (bs : List Byte) : Nat := bs.foldl (fun acc b => acc * 256 + b.val) 0

/-- Two bytes, most significant first, of a `quint16`. -/
def be16 (v : Nat) : List Byte := [byte (v / 256), byte v]

/-- Four bytes, most significant first, of a `quint32`. -/
def be32 (v : Nat) : List Byte :=
  [byte (v / 16777216), byte (v / 65536), byte (v / 256), byte v]

/-- The code units of a string as big-endian byte pairs (what `QDataStream` puts on
the wire after byte-swapping on a little-endian host). -/
def utf16be : List QChar → List Byte
  | [] => []
  | u :: us => byte (u.val / 256) :: byte u.val :: utf16be us

/-- Code units rebuilt from big-endian byte pairs; a trailing odd byte is ignored. -/
def unitsOfBytes : List Byte → List QChar
  | hi :: lo :: rest => qchar (hi.val * 256 + lo.val) :: unitsOfBytes rest
  | _ => []

/-! ## UTF-8 length (the measure the specification uses)

`QString::toUtf8`: one byte below U+0080, two below U+0800, three for the rest of
the basic plane, four for a surrogate pair; an unpaired surrogate becomes `?`. -/

/-- UTF-8 bytes of a sequence of UTF-16 code units (`QString::toUtf8`). -/
def toUtf8 : List QChar → List Byte
  | [] => []
  | [u] =>
    if u.val < 128 then [byte u.val]
    else if u.val < 2048 then [byte (192 + u.val / 64), byte (128 + u.val % 64)]
    else if 55296 ≤ u.val ∧ u.val < 57344 then [byte 63]
    else [byte (224 + u.val / 4096), byte (128 + u.val / 64 % 64), byte (128 + u.val % 64)]
  | u :: v :: rest =>
    if u.val < 128 then byte u.val :: toUtf8 (v :: rest)
    else if u.val < 2048 then
      byte (192 + u.val / 64) :: byte (128 + u.val % 64) :: toUtf8 (v :: rest)
    else if 55296 ≤ u.val ∧ u.val < 56320 ∧ 56320 ≤ v.val ∧ v.val < 57344 then
      let cp := 65536 + (u.val - 55296) * 1024 + (v.val - 56320)
      byte (240 + cp / 262144) :: byte (128 + cp / 4096 % 64) :: byte (128 + cp / 64 % 64)
        :: byte (128 + cp % 64) :: toUtf8 rest
    else if 55296 ≤ u.val ∧ u.val < 57344 then byte 63 :: toUtf8 (v :: rest)
    else
      byte (224 + u.val / 4096) :: byte (128 + u.val / 64 % 64) :: byte (128 + u.val % 64)
        :: toUtf8 (v :: rest)

/-- UTF-8 byte length of a string. -/
def QString.utf8Length (s : QString) : Nat := (toUtf8 s.units).length

/-! ## QDataStream and QBuffer -/

/-- `QDataStream::Status`. -/
inductive Status where
  | Ok | ReadPastEnd | ReadCorruptData | WriteFailed
  deriving DecidableEq, Repr

/-- A reading `QDataStream`: the bytes of its device, the device position and the
stream status.  For the `QBuffer` over `_state.buffer` the device bytes are the
buffer; for the socket they are the bytes the socket has available, and the bytes
before `pos` are the ones already taken out of it. -/
structure QDataStream where
  device : List Byte
  pos : Nat
  status : Status
  deriving DecidableEq, Repr

/-- `QDataStream::setStatus`: a status other than `Ok` is sticky. -/
def QDataStream.setStatus (s : QDataStream) (st : Status) : QDataStream :=
  if s.status = .Ok then { s with status := st } else s

/-- `QDataStream::readBlock`: reads up to `len` bytes at the device position, advances
by what was read and sets `ReadPastEnd` on a short read. -/
def QDataStream.readBlock (s : QDataStream) (len : Nat) : List Byte × QDataStream :=
  let got := (s.device.drop s.pos).take len
  let s1 := { s with pos := s.pos + got.length }
  (got, if got.length = len then s1 else s1.setStatus .ReadPastEnd)

/-- The stream extraction of a `quint16`: the big-endian value, or 0 on a short read. -/
def QDataStream.readUInt16 (s : QDataStream) : Nat × QDataStream :=
  let r := s.readBlock 2
  (if r.1.length = 2 then beValue r.1 else 0, r.2)

/-- The stream extraction of a `quint32`: the big-endian value, or 0 on a short read. -/
def QDataStream.readUInt32 (s : QDataStream) : Nat × QDataStream :=
  let r := s.readBlock 4
  (if r.1.length = 4 then beValue r.1 else 0, r.2)

/-- The stream extraction of a `QString` (stream version 3 and later): a 32-bit byte
count, `0xffffffff` for the null string, followed by that many bytes of UTF-16.  An
odd count is `ReadCorruptData`; too few bytes is `ReadPastEnd`; in both cases the
string is cleared.  Qt reads the characters in blocks of 2^20, which reaches the
same position and status as the single read used here. -/
def QDataStream.readQString (s : QDataStream) : QString × QDataStream :=
  let r := s.readUInt32
  let bytes := r.1
  if bytes = 4294967295 then (.null, r.2)
  else if 0 < bytes then
    if bytes % 2 = 1 then (.null, r.2.setStatus .ReadCorruptData)
    else
      let d := r.2.readBlock bytes
      if d.1.length = bytes then (.str (unitsOfBytes d.1), d.2) else (.null, d.2)
  else (.str [], r.2)

/-- A `QBuffer` opened for writing on a byte array: contents and write position. -/
structure QBuffer where
  data : List Byte
  pos : Nat
  deriving DecidableEq, Repr

/-- `QBuffer::writeData`: overwrites at the position and extends the array as needed. -/
def QBuffer.write (b : QBuffer) (bytes : List Byte) : QBuffer :=
  { data := b.data.take b.pos ++ bytes ++ b.data.drop (b.pos + bytes.length),
    pos := b.pos + bytes.length }

/-- `QIODevice::seek`. -/
def QBuffer.seek (b : QBuffer) (p : Nat) : QBuffer := { b with pos := p }

/-- The stream insertion of a `quint16`. -/
def QBuffer.writeUInt16 (b : QBuffer) (v : Nat) : QBuffer := b.write (be16 v)

/-- The stream insertion of a `quint32`. -/
def QBuffer.writeUInt32 (b : QBuffer) (v : Nat) : QBuffer := b.write (be32 v)

/-- The stream insertion of a `QString` (stream version 3 and later): the null marker
`0xffffffff`, or `writeBytes` of the UTF-16 data, that is a 32-bit byte count followed
by the code units, big-endian. -/
def QBuffer.writeQString (b : QBuffer) : QString → QBuffer
  | .null => b.writeUInt32 4294967295
  | .str us =>
    let b1 := b.writeUInt32 ((2 * us.length) % 4294967296)
    if us.length = 0 then b1 else b1.write (utf16be us)

/-- The bytes `QBuffer.writeQString` appends for a string: the wire image of a
`QString`. -/
def qstringBytes : QString → List Byte
  | .null => be32 4294967295
  | .str us => be32 ((2 * us.length) % 4294967296) ++ utf16be us

/-- The frame both encoders build for a string: the wire image of the string behind
a 16-bit big-endian count of its bytes, the count reduced to 16 bits. -/
def frameBytes (s : QString) : List Byte :=
  be16 ((qstringBytes s).length % 65536) ++ qstringBytes s

/-- The value of the 16-bit header at the start of a byte sequence. -/
def declaredLength (bs : List Byte) : Nat := beValue (bs.take 2)

/-- The byte stream of a sequence of messages: their frames, one after the other. -/
def frames : List QString → List Byte
  | [] => []
  | m :: ms => frameBytes m ++ frames ms

/-- The bytes a sequence of chunks carries. -/
def concat : List (List Byte) → List Byte
  | [] => []
  | c :: cs => c ++ concat cs

/-! ## The sockets -/

/-- What the code can observe of a `QTcpSocket*`: `null` is the null pointer, `closing`
stands for the socket after `disconnectFromHost()` (closing or already unconnected; it
delivers no further `readyRead`). -/
inductive SocketState where
  | null | unconnected | connected | closing
  deriving DecidableEq, Repr

/-- Outcome of one pass through the body of a `while (true)` loop: `done` is a `break`
or `return`, `again` is reaching the end of the body or a `continue`. -/
inductive Iter (α : Type) where
  | done (a : α) : Iter α
  | again (a : α) : Iter α
  deriving DecidableEq, Repr

/-! ## The client: `ClientConnection` -/

/-- `MAX_PAYLOAD` of `clientconnection.cpp`. -/
def MAX_PAYLOAD : Nat := 4096

/-- The texts passed to `errorOccurred`: "read error (header)", "Incoming payload too
large", "read error (payload)" and the socket's own error string. -/
inductive ClientError where
  | readHeader | tooLarge | readPayload | socketError
  deriving DecidableEq, Repr

/-- The signals of `ClientConnection`. -/
inductive ClientSignal where
  | connected
  | disconnected
  | messageReceived (message : QString)
  | errorOccurred (error : ClientError)
  deriving DecidableEq, Repr

/-- The state of a `ClientConnection` and of its socket: `available` are the bytes the
socket holds for reading (`bytesAvailable()` is their count), `written` the bytes
handed to `_socket->write`, `signals` the signals emitted so far, in order. -/
structure ClientConnection where
  socket : SocketState
  available : List Byte
  written : List Byte
  blockSize : Nat
  signals : List ClientSignal
  deriving DecidableEq, Repr

/-- The object right after its constructor. -/
def ClientConnection.new : ClientConnection :=
  { socket := .unconnected, available := [], written := [], blockSize := 0, signals := [] }

/-- Emission of a signal. -/
def ClientConnection.emit (c : ClientConnection) (s : ClientSignal) : ClientConnection :=
  { c with signals := c.signals ++ [s] }

/-- `ClientConnection::onDisconnected`. -/
def ClientConnection.onDisconnected (c : ClientConnection) : ClientConnection :=
  ({ c with blockSize := 0 }).emit .disconnected

/-- `if (_socket) _socket->abort()`: on a socket that is not unconnected the read
buffer is discarded, the state becomes unconnected and `disconnected()` is emitted,
which runs the slot `onDisconnected` before `abort` returns. -/
def ClientConnection.abort (c : ClientConnection) : ClientConnection :=
  if c.socket = .null ∨ c.socket = .unconnected then c
  else ({ c with socket := .unconnected, available := [] }).onDisconnected

/-- `ClientConnection::sendPayload`. -/
def ClientConnection.sendPayload (c : ClientConnection) (payload : QString) :
    ClientConnection :=
  if c.socket ≠ .connected then c
  else
    let out0 : QBuffer := { data := [], pos := 0 }
    let out1 := out0.writeUInt16 0
    let out2 := out1.writeQString payload
    let blockSize := (out2.data.length - 2) % 65536
    let out3 := (out2.seek 0).writeUInt16 blockSize
    { c with written := c.written ++ out3.data }

/-- The `if (_blockSize == 0) { ... }` block of `ClientConnection::onReadyRead`; `again`
means that control falls through to the payload part. -/
def ClientConnection.readHeader (c : ClientConnection) : Iter ClientConnection :=
  if c.blockSize = 0 then
    if c.available.length < 2 then .done c
    else
      let r := (QDataStream.mk c.available 0 .Ok).readUInt16
      let c1 := { c with blockSize := r.1, available := c.available.drop r.2.pos }
      if r.2.status ≠ .Ok then
        .done (({ c1.abort with blockSize := 0 }).emit (.errorOccurred .readHeader))
      else if c1.blockSize > MAX_PAYLOAD then
        .done (({ c1.abort with blockSize := 0 }).emit (.errorOccurred .tooLarge))
      else .again c1
  else .again c

/-- The body of the `while (true)` loop of `ClientConnection::onReadyRead`.  The stream
status is `Ok` whenever the body is entered, since every other status leaves the loop. -/
def ClientConnection.loopBody (c : ClientConnection) : Iter ClientConnection :=
  match c.readHeader with
  | .done c1 => .done c1
  | .again c1 =>
    if c1.available.length < c1.blockSize then .done c1
    else
      let r := (QDataStream.mk c1.available 0 .Ok).readQString
      let c2 := { c1 with available := c1.available.drop r.2.pos }
      if r.2.status ≠ .Ok then
        .done (({ c2.abort with blockSize := 0 }).emit (.errorOccurred .readPayload))
      else
        .again ({ c2.emit (.messageReceived r.1) with blockSize := 0 })

/-- The `while (true)` loop, with a bound on the number of passes. -/
def ClientConnection.loop : Nat → ClientConnection → Option ClientConnection
  | 0, _ => none
  | fuel + 1, c =>
    match c.loopBody with
    | .done c1 => some c1
    | .again c1 => ClientConnection.loop fuel c1

/-- `ClientConnection::onReadyRead`; every further pass takes bytes out of the socket,
so one pass more than there are bytes available is enough. -/
def ClientConnection.onReadyRead (c : ClientConnection) : Option ClientConnection :=
  if c.socket = .null then some c else ClientConnection.loop (c.available.length + 1) c

/-- Arrival of a chunk from the transport: a connected socket buffers it and emits
`readyRead`; any other socket receives nothing. -/
def ClientConnection.deliver (c : ClientConnection) (chunk : List Byte) :
    Option ClientConnection :=
  if c.socket = .connected then
    ({ c with available := c.available ++ chunk }).onReadyRead
  else some c

/-- Arrival of a sequence of chunks. -/
def ClientConnection.deliverAll :
    ClientConnection → List (List Byte) → Option ClientConnection
  | c, [] => some c
  | c, chunk :: rest =>
    match c.deliver chunk with
    | none => none
    | some c1 => ClientConnection.deliverAll c1 rest

/-- The messages passed to `messageReceived`, in order. -/
def ClientConnection.messages (c : ClientConnection) : List QString :=
  c.signals.filterMap fun s =>
    match s with
    | .messageReceived m => some m
    | _ => none

/-- The errors passed to `errorOccurred`, in order. -/
def ClientConnection.errors (c : ClientConnection) : List ClientError :=
  c.signals.filterMap fun s =>
    match s with
    | .errorOccurred e => some e
    | _ => none

/-! ## The server's connection worker: `ClientHandler` -/

/-- `MAX_BLOCK_SIZE` of `clienthandler.cpp`. -/
def MAX_BLOCK_SIZE : Nat := 65535

/-- `ClientHandler::ClientState`. -/
structure ClientState where
  blockSize : Nat
  buffer : List Byte
  deriving DecidableEq, Repr

/-- The state of a `ClientHandler` and of its socket.  `signalsConnected` records that
`start` made its three `connect` calls, `received` are the strings logged as
"Received:" and passed to `sendToClient`, `written` the bytes handed to
`_socket->write`, `clientDisconnected` counts the emissions of that signal. -/
structure ClientHandler where
  socketDescriptor : Int
  socket : SocketState
  signalsConnected : Bool
  state : ClientState
  outBuffer : List Byte
  disconnectEmitted : Bool
  received : List QString
  written : List Byte
  clientDisconnected : Nat
  deriving DecidableEq, Repr

/-- The object right after its constructor. -/
def ClientHandler.new (socketDescriptor : Int) : ClientHandler :=
  { socketDescriptor := socketDescriptor, socket := .null, signalsConnected := false,
    state := { blockSize := 0, buffer := [] }, outBuffer := [], disconnectEmitted := false,
    received := [], written := [], clientDisconnected := 0 }

/-- `ClientHandler::start`; `descriptorOk` is the result of `setSocketDescriptor`. -/
def ClientHandler.start (h : ClientHandler) (descriptorOk : Bool) : ClientHandler :=
  let h1 := { h with socket := .unconnected }
  if !descriptorOk then { h1 with clientDisconnected := h1.clientDisconnected + 1 }
  else { h1 with socket := .connected, signalsConnected := true }

/-- `_socket->disconnectFromHost()`. -/
def ClientHandler.disconnectFromHost (h : ClientHandler) : ClientHandler :=
  if h.socket = .connected then { h with socket := .closing } else h

/-- `ClientHandler::sendToClient`. -/
def ClientHandler.sendToClient (h : ClientHandler) (data : QString) : ClientHandler :=
  if h.socket ≠ .connected then h
  else
    let out0 : QBuffer := { data := [], pos := 0 }
    let out1 := (out0.writeUInt16 0).writeQString data
    let out2 := (out1.seek 0).writeUInt16 ((out1.data.length - 2) % 65536)
    { h with outBuffer := out2.data, written := h.written ++ out2.data }

/-- The body of the `while (true)` loop of `ClientHandler::onReadyRead`.  The stream is
at position 0 with status `Ok` whenever the body is entered: every pass that goes
on ends with `seek(0)`, and every other status returns. -/
def ClientHandler.loopBody (h : ClientHandler) : Iter ClientHandler :=
  if h.state.buffer.length < 2 then .done h
  else
    let r := (QDataStream.mk h.state.buffer 0 .Ok).readUInt16
    let blockSize := r.1
    if r.2.status ≠ .Ok then .done h.disconnectFromHost
    else if blockSize = 0 then
      .again { h with state := { h.state with buffer := h.state.buffer.drop r.2.pos } }
    else if blockSize > MAX_BLOCK_SIZE then .done h.disconnectFromHost
    else if h.state.buffer.length - 2 < blockSize then .done h
    else
      let d := r.2.readQString
      if d.2.status ≠ .Ok then .done h.disconnectFromHost
      else
        let h1 := { h with state := { h.state with buffer := h.state.buffer.drop d.2.pos } }
        let h2 := ({ h1 with received := h1.received ++ [d.1] }).sendToClient d.1
        if h2.state.buffer.isEmpty then .done h2 else .again h2

/-- The `while (true)` loop, with a bound on the number of passes. -/
def ClientHandler.loop : Nat → ClientHandler → Option ClientHandler
  | 0, _ => none
  | fuel + 1, h =>
    match h.loopBody with
    | .done h1 => some h1
    | .again h1 => ClientHandler.loop fuel h1

/-- `ClientHandler::onReadyRead`, where `chunk` is what `_socket->readAll()` returns;
every further pass removes bytes from the buffer, so one pass more than there are
bytes is enough. -/
def ClientHandler.onReadyRead (h : ClientHandler) (chunk : List Byte) :
    Option ClientHandler :=
  let h1 := { h with state := { h.state with buffer := h.state.buffer ++ chunk } }
  ClientHandler.loop (h1.state.buffer.length + 1) h1

/-- `ClientHandler::emitDisconnected`. -/
def ClientHandler.emitDisconnected (h : ClientHandler) : ClientHandler :=
  if h.disconnectEmitted then h
  else { h with disconnectEmitted := true, clientDisconnected := h.clientDisconnected + 1 }

/-- `ClientHandler::onDisconnected`. -/
def ClientHandler.onDisconnected (h : ClientHandler) : ClientHandler := h.emitDisconnected

/-- `ClientHandler::onError`. -/
def ClientHandler.onError (h : ClientHandler) (_err : Int) : ClientHandler :=
  h.emitDisconnected

/-- The two termination events a socket reports. -/
inductive TerminationEvent where
  | disconnected
  | errorOccurred (err : Int)
  deriving DecidableEq, Repr

/-- Delivery of a termination event to the slot that `start` connected to it; a handler
whose `start` made no connection has no slot to run. -/
def ClientHandler.terminate (h : ClientHandler) : TerminationEvent → ClientHandler
  | .disconnected => if h.signalsConnected then h.onDisconnected else h
  | .errorOccurred err => if h.signalsConnected then h.onError err else h

/-- Delivery of a sequence of termination events. -/
def ClientHandler.terminateAll (h : ClientHandler) (evs : List TerminationEvent) :
    ClientHandler :=
  evs.foldl ClientHandler.terminate h

/-- Arrival of a sequence of chunks, one `onReadyRead` call for each; a socket that is
no longer connected delivers nothing. -/
def ClientHandler.feed : ClientHandler → List (List Byte) → Option ClientHandler
  | h, [] => some h
  | h, chunk :: rest =>
    if h.socket = .connected ∧ h.signalsConnected = true then
      match h.onReadyRead chunk with
      | none => none
      | some h1 => ClientHandler.feed h1 rest
    else ClientHandler.feed h rest

/-! ## The server's registry: `Server` -/

/-- An object address; 0 is the null pointer. -/
abbrev Ptr := Nat

/-- The state of a `Server`: whether it listens, the two sets, and what it has done to
its threads and handlers (`started`: `thread->start()`, `quitRequested`:
`thread->quit()` followed by `wait(500)`, `deleteLater`: `deleteLater()`). -/
structure Server where
  listening : Bool
  activeHandlers : Finset Ptr
  activeThreads : Finset Ptr
  started : Finset Ptr
  quitRequested : Finset Ptr
  deleteLater : Finset Ptr
  deriving DecidableEq

/-- The object after its constructor; `listenOk` is the result of `listen`. -/
def Server.new (listenOk : Bool) : Server :=
  { listening := listenOk, activeHandlers := ∅, activeThreads := ∅, started := ∅,
    quitRequested := ∅, deleteLater := ∅ }

/-- `Server::shutdown`. -/
def Server.shutdown (s : Server) : Server :=
  if s.listening then { s with listening := false } else s

/-- `Server::incomingConnection`; `handler` and `thread` are the addresses the two
`new` expressions return. -/
def Server.incomingConnection (s : Server) (handler thread : Ptr) : Server :=
  { s with
    activeHandlers := insert handler s.activeHandlers,
    activeThreads := insert thread s.activeThreads,
    started := insert thread s.started }

/-- `Server::onClientDisconnected`; `sender` is `qobject_cast<ClientHandler*>(sender())`.
Both paths leave the server as it is: the slot only logs. -/
def Server.onClientDisconnected (s : Server) (sender : Ptr) : Server :=
  if sender = 0 then s else s

/-- `Server::~Server`. -/
def Server.destroy (s : Server) : Server :=
  let s1 := { s with quitRequested := s.quitRequested ∪ s.activeThreads.filter (· ≠ 0) }
  let s2 := { s1 with deleteLater := s1.deleteLater ∪ s1.activeHandlers.filter (· ≠ 0) }
  let s3 := { s2 with deleteLater := s2.deleteLater ∪ s2.activeThreads.filter (· ≠ 0) }
  { s3 with activeThreads := ∅, activeHandlers := ∅ }

/-- A step of the registry. -/
inductive RegistryStep where
  | accept (handler thread : Ptr)
  | terminated (handler : Ptr)
  deriving DecidableEq, Repr

/-- The server after a registry step. -/
def Server.step (s : Server) : RegistryStep → Server
  | .accept handler thread => s.incomingConnection handler thread
  | .terminated handler => s.onClientDisconnected handler

/-- The server after a sequence of registry steps. -/
def Server.run (s : Server) (steps : List RegistryStep) : Server :=
  steps.foldl Server.step s

/-! ## Concrete inputs -/

/-- A client whose socket has reached the connected state. -/
def connectedClient : ClientConnection := { ClientConnection.new with socket := .connected }

/-- A handler whose `start` succeeded on the given descriptor. -/
def startedHandler (socketDescriptor : Int) : ClientHandler :=
  (ClientHandler.new socketDescriptor).start true

/-- The string of 32766 letters `a`: 32766 bytes of UTF-8, 65532 bytes of UTF-16. -/
def longAscii : QString := .str (List.replicate 32766 (qchar 97))

/-- The string of 21846 euro signs (U+20AC): 65538 bytes of UTF-8, 43692 of UTF-16. -/
def manyEuros : QString := .str (List.replicate 21846 (qchar 8364))

/-- The handler or client a pass of a loop ends with. -/
def Iter.value {α : Type} : Iter α → α
  | .done a => a
  | .again a => a

/-! ## The wire image of a string -/

theorem utf16be_length (us : List QChar) : (utf16be us).length = 2 * us.length := by
  induction us with
  | nil => rfl
  | cons u us ih => simp [utf16be, ih]; omega

theorem qchar_split (u : QChar) :
    qchar ((byte (u.val / 256)).val * 256 + (byte u.val).val) = u := by
  apply Fin.ext
  have := u.isLt
  simp only [qchar, byte]
  omega

theorem unitsOfBytes_utf16be (us : List QChar) : unitsOfBytes (utf16be us) = us := by
  induction us with
  | nil => rfl
  | cons u us ih => simp [utf16be, unitsOfBytes, ih, qchar_split]

theorem be32_length (v : Nat) : (be32 v).length = 4 := rfl

theorem be16_length (v : Nat) : (be16 v).length = 2 := rfl

theorem beValue_be16 (v : Nat) (hv : v < 65536) : beValue (be16 v) = v := by
  simp only [beValue, be16, byte, List.foldl]
  omega

theorem beValue_be32 (v : Nat) (hv : v < 4294967296) : beValue (be32 v) = v := by
  simp only [beValue, be32, byte, List.foldl]
  omega

theorem qstringBytes_length (s : QString) :
    (qstringBytes s).length = 4 + 2 * s.length := by
  cases s with
  | null => rfl
  | str us => simp [qstringBytes, be32_length, utf16be_length, QString.length]

theorem frameBytes_length (s : QString) : (frameBytes s).length = 6 + 2 * s.length := by
  simp [frameBytes, be16_length, qstringBytes_length]; omega

/-! ## The encoders -/

theorem write_at_end (b : QBuffer) (bytes : List Byte) (h : b.pos = b.data.length) :
    b.write bytes = { data := b.data ++ bytes, pos := b.data.length + bytes.length } := by
  simp [QBuffer.write, h]

theorem writeQString_at_end (b : QBuffer) (s : QString) (h : b.pos = b.data.length) :
    b.writeQString s =
      { data := b.data ++ qstringBytes s, pos := b.data.length + (qstringBytes s).length } := by
  cases s with
  | null => simp [QBuffer.writeQString, QBuffer.writeUInt32, write_at_end, h, qstringBytes]
  | str us =>
    cases us with
    | nil =>
      simp [QBuffer.writeQString, QBuffer.writeUInt32, write_at_end, h, qstringBytes, utf16be]
    | cons u us =>
      simp [QBuffer.writeQString, QBuffer.writeUInt32, write_at_end, h, qstringBytes,
        be32_length]
      omega

/-- The byte array both encoders build: a zero placeholder, the string, then the
placeholder overwritten with the 16-bit size of what follows it. -/
theorem encoder_data (s : QString) :
    ((((QBuffer.mk [] 0).writeUInt16 0).writeQString s).seek 0).writeUInt16
        (((((QBuffer.mk [] 0).writeUInt16 0).writeQString s).data.length - 2) % 65536)
      = { data := frameBytes s, pos := 2 } := by
  have h0 : (QBuffer.mk [] 0).writeUInt16 0 = { data := be16 0, pos := 2 } := rfl
  rw [h0, writeQString_at_end _ _ rfl]
  simp [QBuffer.seek, QBuffer.writeUInt16, QBuffer.write, be16_length, frameBytes]

theorem sendPayload_written (c : ClientConnection) (s : QString)
    (hc : c.socket = .connected) :
    c.sendPayload s = { c with written := c.written ++ frameBytes s } := by
  simp [ClientConnection.sendPayload, hc, encoder_data]

theorem sendPayload_signals (c : ClientConnection) (s : QString) :
    (c.sendPayload s).signals = c.signals := by
  unfold ClientConnection.sendPayload; split <;> rfl

theorem sendToClient_written (h : ClientHandler) (s : QString)
    (hc : h.socket = .connected) :
    h.sendToClient s =
      { h with outBuffer := frameBytes s, written := h.written ++ frameBytes s } := by
  simp [ClientHandler.sendToClient, hc, encoder_data]

/-! ## Reading from a stream -/

theorem readBlock_ok (dev : List Byte) (pos : Nat) (st : Status) (x rest : List Byte)
    (h : dev.drop pos = x ++ rest) :
    (QDataStream.mk dev pos st).readBlock x.length = (x, QDataStream.mk dev (pos + x.length) st) := by
  simp [QDataStream.readBlock, h]

theorem readUInt16_ok (dev : List Byte) (pos : Nat) (st : Status) (b0 b1 : Byte)
    (rest : List Byte) (h : dev.drop pos = b0 :: b1 :: rest) :
    (QDataStream.mk dev pos st).readUInt16 =
      (b0.val * 256 + b1.val, QDataStream.mk dev (pos + 2) st) := by
  have hb := readBlock_ok dev pos st [b0, b1] rest (by simpa using h)
  simp only [List.length_cons, List.length_nil] at hb
  simp [QDataStream.readUInt16, hb, beValue]

theorem readUInt32_ok (dev : List Byte) (pos : Nat) (st : Status) (v : Nat)
    (hv : v < 4294967296) (rest : List Byte) (h : dev.drop pos = be32 v ++ rest) :
    (QDataStream.mk dev pos st).readUInt32 = (v, QDataStream.mk dev (pos + 4) st) := by
  have hb := readBlock_ok dev pos st (be32 v) rest h
  simp only [be32_length] at hb
  simp [QDataStream.readUInt32, hb, be32_length, beValue_be32 v hv]

theorem readQString_ok (dev : List Byte) (pos : Nat) (s : QString) (rest : List Byte)
    (hs : 2 * s.length < 4294967295) (h : dev.drop pos = qstringBytes s ++ rest) :
    (QDataStream.mk dev pos .Ok).readQString =
      (s, QDataStream.mk dev (pos + (qstringBytes s).length) .Ok) := by
  cases s with
  | null =>
    have h32 := readUInt32_ok dev pos .Ok 4294967295 (by omega) rest h
    simp [QDataStream.readQString, h32, qstringBytes, be32_length]
  | str us =>
    simp only [QString.length] at hs
    have hm : (2 * us.length) % 4294967296 = 2 * us.length := Nat.mod_eq_of_lt (by omega)
    simp only [qstringBytes, hm, List.append_assoc] at h
    have h32 := readUInt32_ok dev pos .Ok (2 * us.length) (by omega) _ h
    have hd : dev.drop (pos + 4) = utf16be us ++ rest := by
      have := congrArg (List.drop 4) h
      simpa [List.drop_drop, be32, Nat.add_comm] using this
    have hb := readBlock_ok dev (pos + 4) .Ok (utf16be us) rest hd
    rw [utf16be_length] at hb
    cases us with
    | nil => simp [QDataStream.readQString, h32, qstringBytes, be32_length, utf16be]
    | cons u us =>
      have hne : 2 * (u :: us).length ≠ 4294967295 := by omega
      have hpos : 0 < 2 * (u :: us).length := by simp
      have hev : ¬ (2 * (u :: us).length % 2 = 1) := by omega
      simp only [QDataStream.readQString, h32, hne, hpos, hev, if_true, if_false, hb,
        utf16be_length, unitsOfBytes_utf16be, qstringBytes, hm, List.length_append,
        be32_length]
      simp [Nat.add_assoc]

/-! ## One pass of the server loop -/

@[simp] theorem sendToClient_state (h : ClientHandler) (s : QString) :
    (h.sendToClient s).state = h.state := by
  unfold ClientHandler.sendToClient; split <;> rfl

@[simp] theorem sendToClient_socket (h : ClientHandler) (s : QString) :
    (h.sendToClient s).socket = h.socket := by
  unfold ClientHandler.sendToClient; split <;> rfl

@[simp] theorem sendToClient_signalsConnected (h : ClientHandler) (s : QString) :
    (h.sendToClient s).signalsConnected = h.signalsConnected := by
  unfold ClientHandler.sendToClient; split <;> rfl

@[simp] theorem sendToClient_received (h : ClientHandler) (s : QString) :
    (h.sendToClient s).received = h.received := by
  unfold ClientHandler.sendToClient; split <;> rfl

@[simp] theorem sendToClient_clientDisconnected (h : ClientHandler) (s : QString) :
    (h.sendToClient s).clientDisconnected = h.clientDisconnected := by
  unfold ClientHandler.sendToClient; split <;> rfl

@[simp] theorem sendToClient_disconnectEmitted (h : ClientHandler) (s : QString) :
    (h.sendToClient s).disconnectEmitted = h.disconnectEmitted := by
  unfold ClientHandler.sendToClient; split <;> rfl

theorem frameBytes_cons (s : QString) (hs : 4 + 2 * s.length ≤ 65535) :
    frameBytes s =
      byte ((4 + 2 * s.length) / 256) :: byte (4 + 2 * s.length) :: qstringBytes s := by
  have hm : (4 + 2 * s.length) % 65536 = 4 + 2 * s.length := Nat.mod_eq_of_lt (by omega)
  simp [frameBytes, qstringBytes_length, hm, be16]

theorem header_value (n : Nat) (hn : n < 65536) :
    (byte (n / 256)).val * 256 + (byte n).val = n := by
  simp only [byte]
  omega

/-- A pass that finds a whole frame of a string that fits the 16-bit header in front of
the buffer decodes that string, echoes it and leaves what follows the frame. -/
theorem loopBody_frame (h : ClientHandler) (s : QString) (rest : List Byte)
    (hs : 4 + 2 * s.length ≤ 65535) (hb : h.state.buffer = frameBytes s ++ rest) :
    h.loopBody =
      if rest.isEmpty then
        .done (({ h with state := { h.state with buffer := rest },
                         received := h.received ++ [s] }).sendToClient s)
      else
        .again (({ h with state := { h.state with buffer := rest },
                          received := h.received ++ [s] }).sendToClient s) := by
  have hf := frameBytes_cons s hs
  have hlen : h.state.buffer.length = 6 + 2 * s.length + rest.length := by
    rw [hb, List.length_append, frameBytes_length]
  have h16 := readUInt16_ok h.state.buffer 0 .Ok (byte ((4 + 2 * s.length) / 256))
    (byte (4 + 2 * s.length)) (qstringBytes s ++ rest) (by simp [hb, hf])
  rw [header_value _ (by omega)] at h16
  have hq := readQString_ok h.state.buffer (0 + 2) s rest (by omega)
    (by simp [hb, hf])
  rw [qstringBytes_length] at hq
  have hdrop : List.drop (0 + 2 + (4 + 2 * s.length)) h.state.buffer = rest := by
    rw [hb]
    have : 0 + 2 + (4 + 2 * s.length) = (frameBytes s).length := by
      rw [frameBytes_length]; omega
    rw [this, List.drop_left]
  have h1 : ¬ (h.state.buffer.length < 2) := by omega
  have h2 : ¬ (4 + 2 * s.length = 0) := by omega
  have h3 : ¬ (4 + 2 * s.length > MAX_BLOCK_SIZE) := by simp [MAX_BLOCK_SIZE]; omega
  have h4 : ¬ (h.state.buffer.length - 2 < 4 + 2 * s.length) := by omega
  unfold ClientHandler.loopBody
  simp only [h1, h16, h2, h3, h4, hq, hdrop, if_false, ne_eq, not_true_eq_false]
  cases hr : rest.isEmpty
  · have hne : rest ≠ [] := by
      intro h0; simp [h0] at hr
    simp [hne]
  · have he : rest = [] := by simpa using hr
    simp [he]

/-- A pass that finds only the beginning of such a frame waits: it changes nothing. -/
theorem loopBody_wait (h : ClientHandler) (s : QString) (tail : List Byte)
    (hs : 4 + 2 * s.length ≤ 65535) (htail : tail ≠ [])
    (hb : h.state.buffer ++ tail = frameBytes s) :
    h.loopBody = .done h := by
  have hf := frameBytes_cons s hs
  have hlen : h.state.buffer.length + tail.length = 6 + 2 * s.length := by
    rw [← List.length_append, hb, frameBytes_length]
  have htl : 0 < tail.length := List.length_pos.mpr htail
  unfold ClientHandler.loopBody
  by_cases h1 : h.state.buffer.length < 2
  · simp [h1]
  · rw [hf] at hb
    obtain ⟨b0, b1, r, hbuf⟩ : ∃ b0 b1 r, h.state.buffer = b0 :: b1 :: r := by
      match hm : h.state.buffer with
      | [] => simp [hm] at h1
      | [_] => simp [hm] at h1
      | b0 :: b1 :: r => exact ⟨b0, b1, r, rfl⟩
    rw [hbuf] at hb
    simp only [List.cons_append, List.cons.injEq] at hb
    obtain ⟨e0, e1, _⟩ := hb
    have h16 := readUInt16_ok h.state.buffer 0 .Ok b0 b1 r (by simp [hbuf])
    rw [e0, e1, header_value _ (by omega)] at h16
    have h2 : ¬ (4 + 2 * s.length = 0) := by omega
    have h3 : ¬ (4 + 2 * s.length > MAX_BLOCK_SIZE) := by simp [MAX_BLOCK_SIZE]; omega
    have h4 : h.state.buffer.length - 2 < 4 + 2 * s.length := by omega
    simp only [h1, h16, h2, h3, h4, if_false, if_true, ne_eq, not_true_eq_false]

/-! ## The server loop on a stream of frames -/

theorem loop_stream (ms : List QString) :
    ∀ (h : ClientHandler) (rest : List Byte) (fuel : Nat),
      (∀ m ∈ ms, 4 + 2 * m.length ≤ 65535) →
      h.state.buffer ++ rest = frames ms →
      h.state.buffer.length < fuel →
      ∃ h1 ms1 ms2, h.loop fuel = some h1 ∧ ms = ms1 ++ ms2 ∧
        h1.received = h.received ++ ms1 ∧ h1.state.buffer ++ rest = frames ms2 ∧
        h1.socket = h.socket ∧ h1.signalsConnected = h.signalsConnected ∧
        (∀ m ms3, ms2 = m :: ms3 → h1.state.buffer.length < (frameBytes m).length) := by
  induction ms with
  | nil =>
    intro h rest fuel _ hb hfuel
    have hnil : h.state.buffer = [] := by
      simp only [frames, List.append_eq_nil] at hb
      exact hb.1
    obtain ⟨f, rfl⟩ : ∃ f, fuel = f + 1 := ⟨fuel - 1, by omega⟩
    refine ⟨h, [], [], ?_, rfl, by simp, by simpa using hb, rfl, rfl, by simp⟩
    simp [ClientHandler.loop, ClientHandler.loopBody, hnil]
  | cons m ms ih =>
    intro h rest fuel hall hb hfuel
    have hm : 4 + 2 * m.length ≤ 65535 := hall m (List.mem_cons_self _ _)
    have hrest : ∀ m1 ∈ ms, 4 + 2 * m1.length ≤ 65535 :=
      fun m1 h1 => hall m1 (List.mem_cons_of_mem _ h1)
    obtain ⟨f, rfl⟩ : ∃ f, fuel = f + 1 := ⟨fuel - 1, by omega⟩
    simp only [frames] at hb
    rcases List.append_eq_append_iff.mp hb with ⟨a, ha, hr⟩ | ⟨c, hc, hr⟩
    · -- the buffer is a beginning of the first frame
      by_cases hanil : a = []
      · -- the buffer is exactly the first frame
        subst hanil
        have hbuf : h.state.buffer = frameBytes m ++ [] := by simpa using ha.symm
        have hbody := loopBody_frame h m [] hm hbuf
        simp only [List.isEmpty_nil, if_true] at hbody
        refine ⟨({ h with state := { h.state with buffer := [] },
                          received := h.received ++ [m] }).sendToClient m,
          [m], ms, ?_, rfl, by simp, by simpa using hr, by simp, by simp, ?_⟩
        · simp [ClientHandler.loop, hbody]
        · intro m1 ms3 _
          simp [frameBytes_length]
      · have hbody := loopBody_wait h m a hm hanil ha.symm
        refine ⟨h, [], m :: ms, ?_, rfl, by simp, by simpa [frames] using hb, rfl, rfl, ?_⟩
        · simp [ClientHandler.loop, hbody]
        · intro m1 ms3 he
          obtain ⟨rfl, -⟩ := List.cons.inj he
          have : (frameBytes m).length = h.state.buffer.length + a.length := by
            rw [ha, List.length_append]
          have : 0 < a.length := List.length_pos.mpr hanil
          omega
    · -- the buffer holds the whole first frame and `c` after it
      have hbody := loopBody_frame h m c hm hc
      by_cases hcnil : c = []
      · subst hcnil
        simp only [List.isEmpty_nil, if_true] at hbody
        refine ⟨({ h with state := { h.state with buffer := [] },
                          received := h.received ++ [m] }).sendToClient m,
          [m], ms, ?_, rfl, by simp, by simpa using hr.symm, by simp, by simp, ?_⟩
        · simp [ClientHandler.loop, hbody]
        · intro m1 ms3 _
          simp [frameBytes_length]
      · have hce : c.isEmpty = false := by
          cases c with
          | nil => exact absurd rfl hcnil
          | cons _ _ => rfl
        simp only [hce] at hbody
        have hlen : h.state.buffer.length = 6 + 2 * m.length + c.length := by
          rw [hc, List.length_append, frameBytes_length]
        obtain ⟨h1, ms1, ms2, hl, hms, hrec, hbuf, hsock, hsig, hq⟩ :=
          ih (({ h with state := { h.state with buffer := c },
                        received := h.received ++ [m] }).sendToClient m) rest f hrest
            (by simpa using hr.symm) (by simp; omega)
        refine ⟨h1, m :: ms1, ms2, ?_, by simp [hms], ?_, hbuf, by simpa using hsock,
          by simpa using hsig, hq⟩
        · simp [ClientHandler.loop, hbody, hl]
        · simpa using hrec

theorem feed_stream (cs : List (List Byte)) :
    ∀ (h : ClientHandler) (ms : List QString),
      (∀ m ∈ ms, 4 + 2 * m.length ≤ 65535) →
      h.socket = .connected → h.signalsConnected = true →
      h.state.buffer ++ concat cs = frames ms →
      (∀ m ms3, ms = m :: ms3 → h.state.buffer.length < (frameBytes m).length) →
      ∃ h1, h.feed cs = some h1 ∧ h1.received = h.received ++ ms ∧
        h1.state.buffer = [] ∧ h1.socket = .connected := by
  induction cs with
  | nil =>
    intro h ms _ hsock _ hb hq
    simp only [concat, List.append_nil] at hb
    cases ms with
    | nil =>
      exact ⟨h, rfl, by simp, by simpa [frames] using hb, hsock⟩
    | cons m ms =>
      have h1 := hq m ms rfl
      have h2 : h.state.buffer.length = (frameBytes m).length + (frames ms).length := by
        rw [hb, frames, List.length_append]
      omega
  | cons c cs ih =>
    intro h ms hall hsock hsig hb hq
    simp only [concat, ← List.append_assoc] at hb
    obtain ⟨h1, ms1, ms2, hl, hms, hrec, hbuf, hs1, hg1, hq1⟩ :=
      loop_stream ms { h with state := { h.state with buffer := h.state.buffer ++ c } }
        (concat cs) ((h.state.buffer ++ c).length + 1) hall hb (Nat.lt_succ_self _)
    have hall2 : ∀ m ∈ ms2, 4 + 2 * m.length ≤ 65535 := by
      intro m hm
      exact hall m (by rw [hms]; exact List.mem_append_right _ hm)
    obtain ⟨h2, hf, hrec2, hbuf2, hs2⟩ :=
      ih h1 ms2 hall2 (by rw [hs1]; exact hsock) (by rw [hg1]; exact hsig) hbuf hq1
    refine ⟨h2, ?_, ?_, hbuf2, hs2⟩
    · have hr : h.onReadyRead c = some h1 := hl
      rw [ClientHandler.feed, if_pos ⟨hsock, hsig⟩, hr]
      exact hf
    · rw [hrec2, hrec, hms]
      simp

/-! ## A frame whose size does not fit the header -/

theorem readUInt32_bytes (dev : List Byte) (pos : Nat) (st : Status) (c0 c1 c2 c3 : Byte)
    (rest : List Byte) (h : dev.drop pos = c0 :: c1 :: c2 :: c3 :: rest) :
    (QDataStream.mk dev pos st).readUInt32 =
      (beValue [c0, c1, c2, c3], QDataStream.mk dev (pos + 4) st) := by
  have hb := readBlock_ok dev pos st [c0, c1, c2, c3] rest (by simpa using h)
  simp only [List.length_cons, List.length_nil] at hb
  simp [QDataStream.readUInt32, hb]

/-- A pass that finds a zero header removes it and goes on. -/
theorem loopBody_zero_header (h : ClientHandler) (rest : List Byte)
    (hb : h.state.buffer = 0 :: 0 :: rest) :
    h.loopBody = .again { h with state := { h.state with buffer := rest } } := by
  have h16 := readUInt16_ok h.state.buffer 0 .Ok 0 0 rest (by simp [hb])
  have h1 : ¬ (h.state.buffer.length < 2) := by simp [hb]
  have hd : List.drop (0 + 2) h.state.buffer = rest := by simp [hb]
  unfold ClientHandler.loopBody
  simp only [h1, h16, hd, if_false, if_true, ne_eq, not_true_eq_false]
  simp

/-- A pass that finds a non-zero header, enough bytes behind it and an odd string byte
count ends the connection without a message. -/
theorem loopBody_odd_count (h : ClientHandler) (b0 b1 c0 c1 c2 c3 : Byte) (rest : List Byte)
    (hb : h.state.buffer = b0 :: b1 :: c0 :: c1 :: c2 :: c3 :: rest)
    (hnz : b0.val * 256 + b1.val ≠ 0) (hlen : b0.val * 256 + b1.val ≤ 4 + rest.length)
    (hodd : beValue [c0, c1, c2, c3] % 2 = 1) (hnn : beValue [c0, c1, c2, c3] ≠ 4294967295) :
    h.loopBody = .done h.disconnectFromHost := by
  have h16 := readUInt16_ok h.state.buffer 0 .Ok b0 b1 (c0 :: c1 :: c2 :: c3 :: rest)
    (by simp [hb])
  have h32 := readUInt32_bytes h.state.buffer (0 + 2) .Ok c0 c1 c2 c3 rest (by simp [hb])
  have hpos : 0 < beValue [c0, c1, c2, c3] := by omega
  have hq : (QDataStream.mk h.state.buffer (0 + 2) .Ok).readQString =
      (.null, (QDataStream.mk h.state.buffer (0 + 2 + 4) .Ok).setStatus .ReadCorruptData) := by
    simp only [QDataStream.readQString, h32, hnn, hpos, hodd, if_true, if_false]
  have h1 : ¬ (h.state.buffer.length < 2) := by simp [hb]
  have h3 : ¬ (b0.val * 256 + b1.val > MAX_BLOCK_SIZE) := by
    have := b0.isLt
    have := b1.isLt
    simp only [MAX_BLOCK_SIZE]
    omega
  have h4 : ¬ (h.state.buffer.length - 2 < b0.val * 256 + b1.val) := by
    simp only [hb, List.length_cons]
    omega
  unfold ClientHandler.loopBody
  simp only [h1, h16, hnz, h3, h4, hq, if_false, if_true, ne_eq, not_true_eq_false]
  simp [QDataStream.setStatus]

theorem toUtf8_replicate_ascii (u : QChar) (hu : u.val < 128) (n : Nat) :
    (toUtf8 (List.replicate n u)).length = n := by
  induction n with
  | zero => rfl
  | succ n ih =>
    cases n with
    | zero => simp [List.replicate, toUtf8, hu]
    | succ k =>
      rw [List.replicate_succ] at ih ⊢
      rw [List.replicate_succ]
      simp only [toUtf8, hu, if_true, List.length_cons]
      rw [ih]

theorem toUtf8_replicate_three (u : QChar) (hu : 2048 ≤ u.val)
    (hs : u.val < 55296 ∨ 57344 ≤ u.val) (n : Nat) :
    (toUtf8 (List.replicate n u)).length = 3 * n := by
  have h1 : ¬ u.val < 128 := by omega
  have h2 : ¬ u.val < 2048 := by omega
  have h3 : ¬ (55296 ≤ u.val ∧ u.val < 57344) := by omega
  have h4 : ¬ (55296 ≤ u.val ∧ u.val < 56320 ∧ 56320 ≤ u.val ∧ u.val < 57344) := by omega
  induction n with
  | zero => rfl
  | succ n ih =>
    cases n with
    | zero => simp [List.replicate, toUtf8, h1, h2, h3]
    | succ k =>
      rw [List.replicate_succ] at ih ⊢
      rw [List.replicate_succ]
      simp only [toUtf8, h1, h2, h3, h4, if_false, List.length_cons]
      rw [ih]
      omega

theorem longAscii_eq :
    longAscii = .str (qchar 97 :: qchar 97 :: List.replicate 32764 (qchar 97)) := by
  rw [longAscii, show (32766 : Nat) = 32764 + 1 + 1 from rfl, List.replicate_succ,
    List.replicate_succ]

theorem frameBytes_zero_header (tail : List QChar) (ht : tail.length = 32764) :
    frameBytes (.str (qchar 97 :: qchar 97 :: tail)) =
      0 :: 0 :: 0 :: 0 :: 255 :: 252 :: 0 :: 97 :: 0 :: 97 :: utf16be tail := by
  have e1 : be16 ((4 + 2 * 32766) % 65536) = [0, 0] := by decide
  have e2 : be32 (2 * 32766 % 4294967296) = [0, 0, 255, 252] := by decide
  have e3 : byte ((qchar 97).val / 256) = 0 := by decide
  have e4 : byte (qchar 97).val = 97 := by decide
  have hl : (qchar 97 :: qchar 97 :: tail).length = 32766 := by simp [ht]
  have hq : (qstringBytes (.str (qchar 97 :: qchar 97 :: tail))).length = 4 + 2 * 32766 := by
    rw [qstringBytes_length, QString.length, hl]
  rw [frameBytes, hq, e1]
  simp only [qstringBytes, hl, utf16be, e2, e3, e4, List.cons_append, List.nil_append]

/-- Reading a frame whose header was reduced to zero, the server removes two zero
headers and then ends the connection; it decodes nothing. -/
theorem onReadyRead_zero_header (h : ClientHandler) (tail : List QChar)
    (ht : tail.length = 32764) (hb : h.state.buffer = []) :
    h.onReadyRead (frameBytes (.str (qchar 97 :: qchar 97 :: tail))) =
      some ({ h with state := { h.state with buffer :=
        255 :: 252 :: 0 :: 97 :: 0 :: 97 :: utf16be tail } }).disconnectFromHost := by
  simp only [ClientHandler.onReadyRead, hb, List.nil_append, frameBytes_zero_header tail ht,
    List.length_cons, ClientHandler.loop]
  rw [loopBody_zero_header _ _ rfl]
  simp only [ClientHandler.loop]
  rw [loopBody_zero_header _ _ rfl]
  simp only [ClientHandler.loop]
  rw [loopBody_odd_count _ 255 252 0 97 0 97 _ rfl (by decide)
    (by rw [utf16be_length, ht]; decide) (by decide) (by decide)]

/-! ## Round trip and chunking (C1, C2) -/

/-- C1 (as amended): for every string of at most 32765 UTF-16 code units, that is whose
wire image of `4 + 2 * length` bytes fits the 16-bit header, `sendPayload` and
`sendToClient` build the same frame, the frame is `2 +` its declared length bytes
long, and `ClientHandler::onReadyRead` on a fresh handler decodes from it exactly one
message, the string itself, and leaves the buffer empty. -/
theorem C1_round_trip (socketDescriptor : Int) (c : ClientConnection) (e : ClientHandler)
    (s : QString) (hc : c.socket = .connected) (hw : c.written = [])
    (he : e.socket = .connected) (hs : 4 + 2 * s.length ≤ 65535) :
    (e.sendToClient s).outBuffer = (c.sendPayload s).written ∧
    (c.sendPayload s).written.length = 2 + declaredLength (c.sendPayload s).written ∧
    ∃ h, (startedHandler socketDescriptor).onReadyRead (c.sendPayload s).written = some h ∧
      h.received = [s] ∧ h.state.buffer = [] := by
  have hwr : (c.sendPayload s).written = frameBytes s := by
    rw [sendPayload_written c s hc]
    simp [hw]
  rw [hwr, sendToClient_written e s he]
  refine ⟨rfl, ?_, ?_⟩
  · rw [frameBytes_length, frameBytes_cons s hs]
    simp only [declaredLength, List.take, beValue, List.foldl]
    have := header_value (4 + 2 * s.length) (by omega)
    omega
  · obtain ⟨h1, hf, hrec, hbuf, _⟩ :=
      feed_stream [frameBytes s] (startedHandler socketDescriptor) [s]
        (by simpa using hs) rfl rfl (by simp [concat, frames, startedHandler,
          ClientHandler.start, ClientHandler.new])
        (by intro m ms3 _; simp [startedHandler, ClientHandler.start, ClientHandler.new,
          frameBytes_length])
    have hsock : (startedHandler socketDescriptor).socket = .connected ∧
        (startedHandler socketDescriptor).signalsConnected = true := ⟨rfl, rfl⟩
    rw [ClientHandler.feed, if_pos hsock] at hf
    cases hr : (startedHandler socketDescriptor).onReadyRead (frameBytes s) with
    | none => simp [hr] at hf
    | some h2 =>
      simp only [hr, ClientHandler.feed, Option.some.injEq] at hf
      subst hf
      exact ⟨h2, rfl, by simpa [startedHandler, ClientHandler.start, ClientHandler.new]
        using hrec, hbuf⟩

/-- Witness of C1 at the string "A". -/
theorem C1_round_trip_witness :
    ((startedHandler 8).sendToClient (.str [qchar 65])).outBuffer =
      (connectedClient.sendPayload (.str [qchar 65])).written ∧
    (connectedClient.sendPayload (.str [qchar 65])).written.length =
      2 + declaredLength (connectedClient.sendPayload (.str [qchar 65])).written ∧
    ∃ h, (startedHandler 7).onReadyRead
        (connectedClient.sendPayload (.str [qchar 65])).written = some h ∧
      h.received = [.str [qchar 65]] ∧ h.state.buffer = [] :=
  C1_round_trip 7 connectedClient (startedHandler 8) (.str [qchar 65]) rfl rfl rfl
    (by decide)

/-- C1 fails as stated: the string of 32766 letters `a` has 32766 bytes of UTF-8, yet
its frame carries the header 65536 mod 65536 = 0 and the server decodes no message
from it. -/
theorem C1_counterexample :
    longAscii.utf8Length ≤ 65535 ∧
    ¬ ∃ h, (startedHandler 7).onReadyRead (connectedClient.sendPayload longAscii).written
        = some h ∧ h.received = [longAscii] ∧ h.state.buffer = [] := by
  constructor
  · show (toUtf8 (List.replicate 32766 (qchar 97))).length ≤ 65535
    rw [toUtf8_replicate_ascii _ (by decide)]
    decide
  · rw [sendPayload_written connectedClient longAscii rfl]
    obtain ⟨tail, ht, hl⟩ : ∃ tail : List QChar, tail.length = 32764 ∧
        longAscii = .str (qchar 97 :: qchar 97 :: tail) :=
      ⟨_, List.length_replicate _ _, longAscii_eq⟩
    rw [hl]
    rintro ⟨h, hh, hrec, -⟩
    have hw : connectedClient.written ++ frameBytes (.str (qchar 97 :: qchar 97 :: tail)) =
        frameBytes (.str (qchar 97 :: qchar 97 :: tail)) := rfl
    simp only [hw] at hh
    rw [onReadyRead_zero_header _ tail ht rfl] at hh
    simp only [Option.some.injEq] at hh
    subst hh
    simp [ClientHandler.disconnectFromHost, startedHandler, ClientHandler.start,
      ClientHandler.new] at hrec

/-- C2: for all messages `m1`, `m2` whose wire images fit the 16-bit length field and
every sequence of non-empty chunks that carries the frame of `m1` followed by the
frame of `m2` (as `sendToClient` builds them), feeding the chunks in order to a fresh
handler, one `onReadyRead` call for each, decodes exactly `[m1, m2]` and ends with an
empty buffer. -/
theorem C2_chunk_boundary_invariance (socketDescriptor : Int) (e : ClientHandler)
    (m1 m2 : QString) (chunks : List (List Byte)) (he : e.socket = .connected)
    (h1 : 4 + 2 * m1.length ≤ 65535) (h2 : 4 + 2 * m2.length ≤ 65535)
    (_hne : ∀ c ∈ chunks, c ≠ [])
    (hsplit : concat chunks = (e.sendToClient m1).outBuffer ++ (e.sendToClient m2).outBuffer) :
    ∃ h, (startedHandler socketDescriptor).feed chunks = some h ∧
      h.received = [m1, m2] ∧ h.state.buffer = [] := by
  rw [sendToClient_written e m1 he, sendToClient_written e m2 he] at hsplit
  obtain ⟨h, hf, hrec, hbuf, _⟩ :=
    feed_stream chunks (startedHandler socketDescriptor) [m1, m2]
      (by
        intro m hm
        simp only [List.mem_cons, List.mem_singleton, List.not_mem_nil, or_false] at hm
        rcases hm with rfl | rfl
        · exact h1
        · exact h2)
      rfl rfl
      (by
        simp only [frames, List.append_nil]
        rw [hsplit]
        rfl)
      (by
        intro m ms3 _
        simp [startedHandler, ClientHandler.start, ClientHandler.new, frameBytes_length])
  exact ⟨h, hf, by simpa [startedHandler, ClientHandler.start, ClientHandler.new] using hrec,
    hbuf⟩

/-- Witness of C2: the frames of "A" and of the null string, cut inside the first
header, inside the first payload and inside the second payload. -/
theorem C2_chunk_boundary_invariance_witness :
    ∃ h, (startedHandler 7).feed [[0, 6, 0], [0, 0, 2, 0], [65, 0, 4, 255, 255], [255, 255]]
        = some h ∧
      h.received = [.str [qchar 65], .null] ∧ h.state.buffer = [] :=
  C2_chunk_boundary_invariance 7 (startedHandler 8) (.str [qchar 65]) .null
    [[0, 6, 0], [0, 0, 2, 0], [65, 0, 4, 255, 255], [255, 255]] rfl (by decide) (by decide)
    (by decide) (by decide)

/-! ## The encoder (C3, C4) -/

theorem writeQString_data (s : QString) :
    ((QBuffer.mk [] 0).writeQString s).data = qstringBytes s := by
  rw [writeQString_at_end _ _ rfl]
  rfl

/-- C3 (as amended): for every string of at most 32765 UTF-16 code units, the bytes
`sendPayload` writes and `sendToClient` builds are a 2-byte big-endian length `L`
followed by exactly `L` payload bytes, where the payload is what the stream insertion
of the `QString` writes, namely a 4-byte big-endian byte count (`0xffffffff` for the
null string) followed by the UTF-16 code units, big-endian, and `L = 4 + 2 * length`
is the count of these bytes, the two bytes of the length field not included. -/
theorem C3_wire_format (c : ClientConnection) (e : ClientHandler) (s : QString)
    (hc : c.socket = .connected) (he : e.socket = .connected)
    (hs : 4 + 2 * s.length ≤ 65535) :
    (c.sendPayload s).written =
      c.written ++ be16 ((QBuffer.mk [] 0).writeQString s).data.length ++
        ((QBuffer.mk [] 0).writeQString s).data ∧
    (e.sendToClient s).outBuffer =
      be16 ((QBuffer.mk [] 0).writeQString s).data.length ++
        ((QBuffer.mk [] 0).writeQString s).data ∧
    declaredLength (e.sendToClient s).outBuffer =
      ((QBuffer.mk [] 0).writeQString s).data.length ∧
    ((QBuffer.mk [] 0).writeQString s).data.length = 4 + 2 * s.length ∧
    ((QBuffer.mk [] 0).writeQString s).data =
      match s with
      | .null => [255, 255, 255, 255]
      | .str us => be32 (2 * us.length) ++ utf16be us := by
  have hm : (4 + 2 * s.length) % 65536 = 4 + 2 * s.length := Nat.mod_eq_of_lt (by omega)
  rw [writeQString_data, sendPayload_written c s hc, sendToClient_written e s he,
    qstringBytes_length]
  simp only [frameBytes, qstringBytes_length, hm, List.append_assoc, true_and]
  refine ⟨?_, ?_⟩
  · simp only [declaredLength, be16, List.cons_append, List.nil_append, List.take, beValue,
      List.foldl]
    have := header_value (4 + 2 * s.length) (by omega)
    omega
  · cases s with
    | null => rfl
    | str us =>
      simp only [QString.length] at hs
      have : (2 * us.length) % 4294967296 = 2 * us.length := Nat.mod_eq_of_lt (by omega)
      simp only [qstringBytes, this]

/-- Witness of C3 at the string "A". -/
theorem C3_wire_format_witness :
    (connectedClient.sendPayload (.str [qchar 65])).written = [0, 6, 0, 0, 0, 2, 0, 65] ∧
    ((startedHandler 7).sendToClient (.str [qchar 65])).outBuffer =
      [0, 6, 0, 0, 0, 2, 0, 65] :=
  have h := C3_wire_format connectedClient (startedHandler 7) (.str [qchar 65]) rfl rfl
    (by decide)
  ⟨h.1.trans (by decide), h.2.1.trans (by decide)⟩

/-- C3 fails as stated: for the string "A" the UTF-8 encoding is the single byte 65, so
the claimed frame is `0, 1, 65`; the encoder writes `0, 6, 0, 0, 0, 2, 0, 65`. -/
theorem C3_counterexample :
    (connectedClient.sendPayload (.str [qchar 65])).written ≠
      be16 (toUtf8 [qchar 65]).length ++ toUtf8 [qchar 65] := by
  decide

/-- C4 (as amended): `sendPayload` has no size check and no failure path.  For every
string, whatever its size, `sendPayload` on a connected socket emits no signal and
writes exactly one frame: a 2-byte header followed by the wire image of the string,
`6 + 2 * length` bytes in all. -/
theorem C4_encoder_never_fails (c : ClientConnection) (s : QString)
    (hc : c.socket = .connected) :
    (c.sendPayload s).signals = c.signals ∧
    (c.sendPayload s).socket = .connected ∧
    (c.sendPayload s).written.length = c.written.length + (6 + 2 * s.length) ∧
    ∃ header : List Byte, header.length = 2 ∧
      (c.sendPayload s).written =
        c.written ++ header ++ ((QBuffer.mk [] 0).writeQString s).data := by
  rw [sendPayload_written c s hc, writeQString_data]
  refine ⟨rfl, hc, ?_, be16 ((qstringBytes s).length % 65536), rfl, ?_⟩
  · simp [frameBytes_length]
  · simp [frameBytes]

/-- Witness of C4 at the string of 21846 euro signs. -/
theorem C4_encoder_never_fails_witness :
    (connectedClient.sendPayload manyEuros).signals = connectedClient.signals ∧
    (connectedClient.sendPayload manyEuros).socket = .connected ∧
    (connectedClient.sendPayload manyEuros).written.length =
      connectedClient.written.length + (6 + 2 * manyEuros.length) ∧
    ∃ header : List Byte, header.length = 2 ∧
      (connectedClient.sendPayload manyEuros).written =
        connectedClient.written ++ header ++ ((QBuffer.mk [] 0).writeQString manyEuros).data :=
  C4_encoder_never_fails connectedClient manyEuros rfl

/-- C4 fails as stated: the string of 21846 euro signs has 65538 bytes of UTF-8, yet
`sendPayload` reports no error and writes a frame of 43698 bytes for it. -/
theorem C4_counterexample :
    65535 < manyEuros.utf8Length ∧
    (connectedClient.sendPayload manyEuros).errors = [] ∧
    (connectedClient.sendPayload manyEuros).written.length = 43698 := by
  refine ⟨?_, ?_, ?_⟩
  · show 65535 < (toUtf8 (List.replicate 21846 (qchar 8364))).length
    rw [toUtf8_replicate_three _ (by decide) (by decide)]
    decide
  · rw [ClientConnection.errors, sendPayload_signals]
    rfl
  · rw [sendPayload_written connectedClient manyEuros rfl]
    have hw : connectedClient.written.length = 0 := rfl
    have hl : manyEuros.length = 21846 := by
      rw [manyEuros, QString.length, List.length_replicate]
    simp only [List.length_append, frameBytes_length, hw, hl]

/-! ## Oversized headers (C5) -/

theorem deliverAll_not_connected (c : ClientConnection) (hc : c.socket ≠ .connected)
    (chunks : List (List Byte)) : c.deliverAll chunks = some c := by
  induction chunks with
  | nil => rfl
  | cons chunk rest ih => simp [ClientConnection.deliverAll, ClientConnection.deliver, hc, ih]

/-- C5: a pass of the client loop that reads a header declaring more than `MAX_PAYLOAD`
(4096) bytes rejects at once, whatever follows the two header bytes: it aborts the
socket, emits `errorOccurred` ("Incoming payload too large") and no `messageReceived`,
and leaves `onReadyRead`; the socket is then unconnected with nothing to read, so no
later chunk is decoded.  On the server a header declaring more than `MAX_BLOCK_SIZE`
(65535) would end the connection in the same pass, and no 16-bit header declares that
much. -/
theorem C5_oversize_rejection (c : ClientConnection) (b0 b1 : Byte) (rest : List Byte)
    (later : List (List Byte)) (hsock : c.socket = .connected) (hbs : c.blockSize = 0)
    (hav : c.available = b0 :: b1 :: rest) (hover : MAX_PAYLOAD < b0.val * 256 + b1.val) :
    (∃ c1, c.loopBody = .done c1 ∧ c.onReadyRead = some c1 ∧
      c1.signals = c.signals ++ [.disconnected, .errorOccurred .tooLarge] ∧
      c1.messages = c.messages ∧ c1.errors = c.errors ++ [.tooLarge] ∧
      c1.socket = .unconnected ∧ c1.available = [] ∧ c1.blockSize = 0 ∧
      c1.deliverAll later = some c1 ∧ (c1.deliverAll later).map (·.messages) = some c.messages) ∧
    (∀ (h : ClientHandler) (x y : Byte) (tl : List Byte), h.state.buffer = x :: y :: tl →
      (MAX_BLOCK_SIZE < x.val * 256 + y.val → h.loopBody = .done h.disconnectFromHost) ∧
      x.val * 256 + y.val ≤ MAX_BLOCK_SIZE) := by
  constructor
  · have h16 := readUInt16_ok c.available 0 .Ok b0 b1 rest (by simp [hav])
    have h1 : ¬ (c.available.length < 2) := by simp [hav]
    have hbody : c.loopBody = .done
        { socket := .unconnected, available := [], written := c.written, blockSize := 0,
          signals := c.signals ++ [.disconnected, .errorOccurred .tooLarge] } := by
      unfold ClientConnection.loopBody ClientConnection.readHeader
      simp only [hbs, h1, h16, if_true, if_false, ne_eq, not_true_eq_false, gt_iff_lt, hover]
      simp [ClientConnection.abort, ClientConnection.onDisconnected, ClientConnection.emit,
        hsock]
    refine ⟨_, hbody, ?_, rfl, ?_, ?_, rfl, rfl, rfl, ?_, ?_⟩
    · simp [ClientConnection.onReadyRead, hsock, ClientConnection.loop, hbody]
    · simp [ClientConnection.messages, List.filterMap_append]
    · simp [ClientConnection.errors, List.filterMap_append]
    · exact deliverAll_not_connected _ (by simp) later
    · rw [deliverAll_not_connected _ (by simp) later]
      simp [ClientConnection.messages, List.filterMap_append]
  · intro h x y tl hb
    have hx := x.isLt
    have hy := y.isLt
    refine ⟨?_, by simp only [MAX_BLOCK_SIZE]; omega⟩
    intro hbig
    have h16 := readUInt16_ok h.state.buffer 0 .Ok x y tl (by simp [hb])
    have h1 : ¬ (h.state.buffer.length < 2) := by simp [hb]
    have hnz : ¬ (x.val * 256 + y.val = 0) := by
      simp only [MAX_BLOCK_SIZE] at hbig
      omega
    unfold ClientHandler.loopBody
    simp only [h1, h16, hnz, if_false, if_true, ne_eq, not_true_eq_false, gt_iff_lt, hbig]

/-- Witness of C5: the header `0x10 0x01` declares 4097 bytes and is rejected with no
payload byte behind it; the chunks that follow are not decoded. -/
theorem C5_oversize_rejection_witness :
    ∃ c1, connectedClient.deliver [16, 1] = some c1 ∧
      c1.errors = [.tooLarge] ∧ c1.messages = [] ∧ c1.socket = .unconnected ∧
      (c1.deliverAll [[0, 4, 255, 255, 255, 255]]).map (·.messages) = some [] := by
  obtain ⟨⟨c1, _, hr, _, hm, he, hs, _, _, _, hl⟩, _⟩ :=
    C5_oversize_rejection { connectedClient with available := [16, 1] } 16 1 []
      [[0, 4, 255, 255, 255, 255]] rfl rfl rfl (by decide)
  exact ⟨c1, hr, he, hm, hs, hl⟩

/-! ## What a decoded message removes from the buffer (C6) -/

theorem unitsOfBytes_length : ∀ l : List Byte, (unitsOfBytes l).length = l.length / 2
  | [] => rfl
  | [_] => by simp [unitsOfBytes]
  | _ :: _ :: rest => by
    simp only [unitsOfBytes, List.length_cons, unitsOfBytes_length rest]
    omega

theorem readBlock_short (dev : List Byte) (pos len : Nat)
    (h : (dev.drop pos).length < len) :
    ((QDataStream.mk dev pos .Ok).readBlock len).2.status = .ReadPastEnd := by
  have hne : ¬ ((List.take len (List.drop pos dev)).length = len) := by
    rw [List.length_take]
    omega
  simp only [QDataStream.readBlock, hne, if_false, QDataStream.setStatus, if_true]

theorem readBlock_take (dev : List Byte) (pos len : Nat)
    (h : len ≤ (dev.drop pos).length) :
    (QDataStream.mk dev pos .Ok).readBlock len =
      ((dev.drop pos).take len, QDataStream.mk dev (pos + len) .Ok) := by
  have hb := readBlock_ok dev pos .Ok ((dev.drop pos).take len) ((dev.drop pos).drop len)
    (List.take_append_drop _ _).symm
  have hl : ((dev.drop pos).take len).length = len := by
    rw [List.length_take]
    omega
  rw [hl] at hb
  exact hb

/-- A `QString` extraction that ends with status `Ok` has advanced the stream by the
four bytes of the count and two bytes for each code unit of the string. -/
theorem readQString_pos (dev : List Byte) (p : Nat)
    (hok : ((QDataStream.mk dev p .Ok).readQString).2.status = .Ok) :
    ((QDataStream.mk dev p .Ok).readQString).2.pos =
      p + 4 + 2 * ((QDataStream.mk dev p .Ok).readQString).1.length := by
  by_cases h4 : 4 ≤ (dev.drop p).length
  · have hb := readBlock_take dev p 4 h4
    have hl : ((dev.drop p).take 4).length = 4 := by
      rw [List.length_take]
      omega
    have h32 : (QDataStream.mk dev p .Ok).readUInt32 =
        (beValue ((dev.drop p).take 4), QDataStream.mk dev (p + 4) .Ok) := by
      simp [QDataStream.readUInt32, hb, hl]
    generalize beValue ((dev.drop p).take 4) = v at h32
    by_cases hv1 : v = 4294967295
    · simp [QDataStream.readQString, h32, hv1, QString.length]
    · by_cases hv2 : 0 < v
      · by_cases hv3 : v % 2 = 1
        · simp [QDataStream.readQString, h32, hv1, hv2, hv3, QDataStream.setStatus] at hok
        · by_cases hv4 : v ≤ (dev.drop (p + 4)).length
          · have hd := readBlock_take dev (p + 4) v hv4
            have hlv : ((dev.drop (p + 4)).take v).length = v := by
              rw [List.length_take]
              omega
            simp only [QDataStream.readQString, h32, hv1, hv2, hv3, hd, hlv, if_true,
              if_false, QString.length, unitsOfBytes_length]
            omega
          · have hst := readBlock_short dev (p + 4) v (by omega)
            have hne : ¬ (((QDataStream.mk dev (p + 4) .Ok).readBlock v).1.length = v) := by
              simp only [QDataStream.readBlock, List.length_take]
              omega
            simp [QDataStream.readQString, h32, hv1, hv2, hv3, hne, hst] at hok
      · have hv0 : v = 0 := by omega
        simp [QDataStream.readQString, h32, hv0, QString.length]
  · have hst := readBlock_short dev p 4 (by omega)
    have hne : ¬ (((QDataStream.mk dev p .Ok).readBlock 4).1.length = 4) := by
      simp only [QDataStream.readBlock, List.length_take]
      omega
    simp [QDataStream.readQString, QDataStream.readUInt32, hne, hst] at hok

theorem disconnectFromHost_received (h : ClientHandler) :
    h.disconnectFromHost.received = h.received := by
  unfold ClientHandler.disconnectFromHost; split <;> rfl

theorem not_self_append_singleton {α : Type} (l : List α) (a : α) : l ≠ l ++ [a] := by
  intro h
  have := congrArg List.length h
  simp at this

/-- C6 (as amended): whenever a pass of the server loop decodes a message, the prefix
it removes from `_state.buffer` is what the stream has read: the 2 header bytes, the 4
bytes of the string's byte count and 2 bytes for each code unit of the decoded string;
all bytes after that prefix remain, in order.  The prefix is `2 +` the declared
length exactly when the header declares `4 + 2 * length` bytes, as every frame of
the encoders does for a string of at most 32765 code units. -/
theorem C6_decode_consumption (h : ClientHandler) (data : QString)
    (hmsg : h.loopBody.value.received = h.received ++ [data]) :
    h.loopBody.value.state.buffer = h.state.buffer.drop (2 + 4 + 2 * data.length) ∧
    (declaredLength h.state.buffer = 4 + 2 * data.length →
      h.loopBody.value.state.buffer =
        h.state.buffer.drop (2 + declaredLength h.state.buffer)) := by
  have key : h.loopBody.value.state.buffer = h.state.buffer.drop (2 + 4 + 2 * data.length) := by
    have hno := not_self_append_singleton h.received data
    unfold ClientHandler.loopBody at hmsg ⊢
    by_cases h1 : h.state.buffer.length < 2
    · simp only [h1, if_true, Iter.value] at hmsg
      exact absurd hmsg hno
    · obtain ⟨b0, b1, r, hbuf⟩ : ∃ b0 b1 r, h.state.buffer = b0 :: b1 :: r := by
        match hm : h.state.buffer with
        | [] => simp [hm] at h1
        | [_] => simp [hm] at h1
        | b0 :: b1 :: r => exact ⟨b0, b1, r, rfl⟩
      have h16 := readUInt16_ok h.state.buffer 0 .Ok b0 b1 r (by simp [hbuf])
      simp only [h1, h16, if_false, ne_eq, not_true_eq_false] at hmsg ⊢
      by_cases h2 : b0.val * 256 + b1.val = 0
      · simp only [h2, if_true, Iter.value] at hmsg
        exact absurd hmsg hno
      · simp only [h2, if_false] at hmsg ⊢
        by_cases h3 : b0.val * 256 + b1.val > MAX_BLOCK_SIZE
        · simp only [h3, if_true, Iter.value, disconnectFromHost_received] at hmsg
          exact absurd hmsg hno
        · simp only [h3, if_false] at hmsg ⊢
          by_cases h4 : h.state.buffer.length - 2 < b0.val * 256 + b1.val
          · simp only [h4, if_true, Iter.value] at hmsg
            exact absurd hmsg hno
          · simp only [h4, if_false] at hmsg ⊢
            by_cases h5 : ((QDataStream.mk h.state.buffer (0 + 2) .Ok).readQString).2.status
                = .Ok
            · have hpos := readQString_pos h.state.buffer (0 + 2) h5
              simp only [h5, not_true_eq_false, if_false] at hmsg ⊢
              have hd : ((QDataStream.mk h.state.buffer (0 + 2) .Ok).readQString).1 = data := by
                split at hmsg <;>
                  simpa [Iter.value] using hmsg
              rw [hd] at hpos
              split <;> simp [Iter.value, hpos]
            · simp only [h5, not_false_eq_true, if_true, Iter.value,
                disconnectFromHost_received] at hmsg
              exact absurd hmsg hno
  refine ⟨key, ?_⟩
  intro hd
  rw [key, hd, Nat.add_assoc]

/-- Witness of C6: the frame of "A" followed by one more byte. -/
theorem C6_decode_consumption_witness :
    ({ startedHandler 7 with
        state := { blockSize := 0, buffer := [0, 6, 0, 0, 0, 2, 0, 65, 9] } }
      : ClientHandler).loopBody.value.state.buffer = [9] :=
  (C6_decode_consumption
    { startedHandler 7 with state := { blockSize := 0, buffer := [0, 6, 0, 0, 0, 2, 0, 65, 9] } }
    (.str [qchar 65]) (by decide)).1.trans (by decide)

/-- C6 fails as stated: from the buffer `0, 1, 0, 0, 0, 0, 170` the server decodes the
empty string; the header declares 1 byte, so the claimed prefix is 3 bytes, but 6
bytes are removed. -/
theorem C6_counterexample :
    ({ startedHandler 7 with
        state := { blockSize := 0, buffer := [0, 1, 0, 0, 0, 0, 170] } }
      : ClientHandler).loopBody.value.received = [.str []] ∧
    ({ startedHandler 7 with
        state := { blockSize := 0, buffer := [0, 1, 0, 0, 0, 0, 170] } }
      : ClientHandler).loopBody.value.state.buffer = [170] ∧
    ({ startedHandler 7 with
        state := { blockSize := 0, buffer := [0, 1, 0, 0, 0, 0, 170] } }
      : ClientHandler).loopBody.value.state.buffer ≠
      List.drop (2 + declaredLength [0, 1, 0, 0, 0, 0, 170]) [0, 1, 0, 0, 0, 0, 170] := by
  decide

/-! ## Both loops end within the passes they are given -/

theorem readQString_needs_count (dev : List Byte) (p : Nat)
    (hok : ((QDataStream.mk dev p .Ok).readQString).2.status = .Ok) :
    4 ≤ (dev.drop p).length := by
  by_contra h4
  have hst := readBlock_short dev p 4 (by omega)
  have hne : ¬ (((QDataStream.mk dev p .Ok).readBlock 4).1.length = 4) := by
    simp only [QDataStream.readBlock, List.length_take]
    omega
  simp [QDataStream.readQString, QDataStream.readUInt32, hne, hst] at hok

theorem handler_pass_shortens (h h1 : ClientHandler) (hb : h.loopBody = .again h1) :
    h1.state.buffer.length < h.state.buffer.length := by
  unfold ClientHandler.loopBody at hb
  by_cases c1 : h.state.buffer.length < 2
  · simp [c1] at hb
  · obtain ⟨b0, b1, r, hbuf⟩ : ∃ b0 b1 r, h.state.buffer = b0 :: b1 :: r := by
      match hm : h.state.buffer with
      | [] => simp [hm] at c1
      | [_] => simp [hm] at c1
      | b0 :: b1 :: r => exact ⟨b0, b1, r, rfl⟩
    have h16 := readUInt16_ok h.state.buffer 0 .Ok b0 b1 r (by simp [hbuf])
    simp only [c1, h16, if_false, ne_eq, not_true_eq_false] at hb
    by_cases c2 : b0.val * 256 + b1.val = 0
    · simp only [c2, if_true, Iter.again.injEq] at hb
      subst hb
      simp only [List.length_drop]
      omega
    · simp only [c2, if_false] at hb
      by_cases c3 : b0.val * 256 + b1.val > MAX_BLOCK_SIZE
      · simp [c3] at hb
      · simp only [c3, if_false] at hb
        by_cases c4 : h.state.buffer.length - 2 < b0.val * 256 + b1.val
        · simp [c4] at hb
        · simp only [c4, if_false] at hb
          by_cases c5 : ((QDataStream.mk h.state.buffer (0 + 2) .Ok).readQString).2.status = .Ok
          · have hpos := readQString_pos h.state.buffer (0 + 2) c5
            simp only [c5, not_true_eq_false, if_false] at hb
            split at hb
            · simp at hb
            · simp only [Iter.again.injEq] at hb
              subst hb
              simp only [sendToClient_state, List.length_drop, hpos]
              omega
          · simp [c5] at hb

theorem handler_loop_returns (fuel : Nat) :
    ∀ h : ClientHandler, h.state.buffer.length < fuel → (h.loop fuel).isSome = true := by
  induction fuel with
  | zero => intro h hl; omega
  | succ f ih =>
    intro h hl
    cases hb : h.loopBody with
    | done h1 => simp [ClientHandler.loop, hb]
    | again h1 =>
      have := handler_pass_shortens h h1 hb
      simp only [ClientHandler.loop, hb]
      exact ih h1 (by omega)

/-- `ClientHandler::onReadyRead` returns on every buffer and chunk: the number of
passes allowed is never used up. -/
theorem handler_onReadyRead_returns (h : ClientHandler) (chunk : List Byte) :
    (h.onReadyRead chunk).isSome = true :=
  handler_loop_returns _ _ (Nat.lt_succ_self _)

theorem readHeader_again (c c1 : ClientConnection) (hr : c.readHeader = .again c1) :
    c1.available.length ≤ c.available.length := by
  unfold ClientConnection.readHeader at hr
  by_cases h0 : c.blockSize = 0
  · simp only [h0, if_true] at hr
    by_cases h1 : c.available.length < 2
    · simp [h1] at hr
    · simp only [h1, if_false] at hr
      split at hr
      · simp at hr
      · split at hr
        · simp at hr
        · simp only [Iter.again.injEq] at hr
          subst hr
          simp only [List.length_drop]
          omega
  · simp only [h0, if_false, Iter.again.injEq] at hr
    subst hr
    exact Nat.le_refl _

theorem client_pass_shortens (c c2 : ClientConnection) (hb : c.loopBody = .again c2) :
    c2.available.length < c.available.length := by
  unfold ClientConnection.loopBody at hb
  cases hr : c.readHeader with
  | done c1 => simp [hr] at hb
  | again c1 =>
    have hle := readHeader_again c c1 hr
    simp only [hr] at hb
    by_cases h1 : c1.available.length < c1.blockSize
    · simp [h1] at hb
    · simp only [h1, if_false] at hb
      by_cases h2 : ((QDataStream.mk c1.available 0 .Ok).readQString).2.status = .Ok
      · have hpos := readQString_pos c1.available 0 h2
        have hcnt := readQString_needs_count c1.available 0 h2
        simp only [h2, not_true_eq_false, if_false, ne_eq, Iter.again.injEq] at hb
        subst hb
        simp only [ClientConnection.emit, List.length_drop, hpos]
        simp only [List.drop_zero] at hcnt
        omega
      · simp [h2] at hb

theorem client_loop_returns (fuel : Nat) :
    ∀ c : ClientConnection, c.available.length < fuel → (c.loop fuel).isSome = true := by
  induction fuel with
  | zero => intro c hl; omega
  | succ f ih =>
    intro c hl
    cases hb : c.loopBody with
    | done c1 => simp [ClientConnection.loop, hb]
    | again c1 =>
      have := client_pass_shortens c c1 hb
      simp only [ClientConnection.loop, hb]
      exact ih c1 (by omega)

/-- `ClientConnection::onReadyRead` returns in every state. -/
theorem client_onReadyRead_returns (c : ClientConnection) :
    c.onReadyRead.isSome = true := by
  unfold ClientConnection.onReadyRead
  split
  · rfl
  · exact client_loop_returns _ _ (Nat.lt_succ_self _)

/-! ## Termination is reported once (C7) -/

theorem terminate_after_emitted (h : ClientHandler) (e : TerminationEvent)
    (hd : h.disconnectEmitted = true) : h.terminate e = h := by
  cases e <;>
    simp [ClientHandler.terminate, ClientHandler.onDisconnected, ClientHandler.onError,
      ClientHandler.emitDisconnected, hd]

theorem terminateAll_after_emitted (es : List TerminationEvent) (h : ClientHandler)
    (hd : h.disconnectEmitted = true) : h.terminateAll es = h := by
  induction es with
  | nil => rfl
  | cons e es ih =>
    simp only [ClientHandler.terminateAll, List.foldl_cons] at ih ⊢
    rw [terminate_after_emitted h e hd]
    exact ih

theorem terminate_first (h : ClientHandler) (e : TerminationEvent)
    (hc : h.signalsConnected = true) (hd : h.disconnectEmitted = false) :
    (h.terminate e).clientDisconnected = h.clientDisconnected + 1 ∧
    (h.terminate e).disconnectEmitted = true := by
  cases e <;>
    simp [ClientHandler.terminate, ClientHandler.onDisconnected, ClientHandler.onError,
      ClientHandler.emitDisconnected, hc, hd]

/-- C7: a handler whose `start` connected its slots and which has not yet reported its
termination emits `clientDisconnected` exactly once over every non-empty sequence of
`onError` and `onDisconnected` events, in any order: the first event emits it and the
count stays there over all the events that follow. -/
theorem C7_idempotent_termination (h : ClientHandler) (e : TerminationEvent)
    (es : List TerminationEvent) (hc : h.signalsConnected = true)
    (hd : h.disconnectEmitted = false) :
    (h.terminate e).clientDisconnected = h.clientDisconnected + 1 ∧
    (h.terminateAll (e :: es)).clientDisconnected = h.clientDisconnected + 1 ∧
    ∀ k, (h.terminateAll (e :: es.take k)).clientDisconnected = h.clientDisconnected + 1 := by
  obtain ⟨h1, h2⟩ := terminate_first h e hc hd
  have hall : ∀ l : List TerminationEvent,
      (h.terminateAll (e :: l)).clientDisconnected = h.clientDisconnected + 1 := by
    intro l
    have : h.terminateAll (e :: l) = (h.terminate e).terminateAll l := rfl
    rw [this, terminateAll_after_emitted l _ h2, h1]
  exact ⟨h1, hall es, fun k => hall _⟩

/-- Witness of C7: a transport error followed by two disconnect events on a handler
that has just been started. -/
theorem C7_idempotent_termination_witness :
    ((startedHandler 7).terminate (.errorOccurred 1)).clientDisconnected = 1 ∧
    ((startedHandler 7).terminateAll
      [.errorOccurred 1, .disconnected, .disconnected]).clientDisconnected = 1 :=
  have h := C7_idempotent_termination (startedHandler 7) (.errorOccurred 1)
    [.disconnected, .disconnected] rfl rfl
  ⟨h.1, h.2.1⟩

/-! ## The registry (C8, C9) -/

theorem run_activeHandlers (steps : List RegistryStep) (s : Server) (handler : Ptr)
    (hm : handler ∈ s.activeHandlers) : handler ∈ (s.run steps).activeHandlers := by
  induction steps generalizing s with
  | nil => exact hm
  | cons st steps ih =>
    have : s.run (st :: steps) = (s.step st).run steps := rfl
    rw [this]
    apply ih
    cases st with
    | accept h2 t2 =>
      simp [Server.step, Server.incomingConnection, hm]
    | terminated h2 =>
      simp only [Server.step, Server.onClientDisconnected]
      split <;> exact hm

/-- C8, evaluated at the failing input: a server accepts a connection (handler 1, thread
2) and the handler then reports its termination; `onClientDisconnected` only logs, so
the handler and its thread are still members of the live sets.  The same holds for
every server and every sequence of registry steps after an acceptance. -/
theorem C8_terminated_handler_still_registered :
    1 ∈ ((Server.new true).run [.accept 1 2, .terminated 1]).activeHandlers ∧
    2 ∈ ((Server.new true).run [.accept 1 2, .terminated 1]).activeThreads ∧
    ∀ (s : Server) (handler thread : Ptr) (steps : List RegistryStep),
      handler ∈ ((s.incomingConnection handler thread).run
        (steps ++ [.terminated handler])).activeHandlers := by
  refine ⟨by decide, by decide, ?_⟩
  intro s handler thread steps
  exact run_activeHandlers _ _ _ (by simp [Server.incomingConnection])

/-- C9 (as amended): after `Server::shutdown` the server no longer listens, and the two
sets are as they were; they are emptied by `~Server`, which `main` runs once the event
loop has returned.  After `shutdown` followed by `~Server` the server does not
listen, both sets are empty, and every registered thread has been asked to quit. -/
theorem C9_shutdown_then_destroy (s : Server) :
    s.shutdown.listening = false ∧
    s.shutdown.activeHandlers = s.activeHandlers ∧
    s.shutdown.activeThreads = s.activeThreads ∧
    s.shutdown.destroy.listening = false ∧
    s.shutdown.destroy.activeHandlers = ∅ ∧
    s.shutdown.destroy.activeThreads = ∅ ∧
    (∀ t ∈ s.activeThreads, t ≠ 0 → t ∈ s.shutdown.destroy.quitRequested) ∧
    (∀ hd ∈ s.activeHandlers, hd ≠ 0 → hd ∈ s.shutdown.destroy.deleteLater) := by
  have hl : s.shutdown.listening = false := by
    unfold Server.shutdown
    split
    · rfl
    · rename_i h
      simpa using h
  have hh : s.shutdown.activeHandlers = s.activeHandlers := by
    unfold Server.shutdown; split <;> rfl
  have ht : s.shutdown.activeThreads = s.activeThreads := by
    unfold Server.shutdown; split <;> rfl
  refine ⟨hl, hh, ht, hl, rfl, rfl, ?_, ?_⟩
  · intro t htm hne
    simp only [Server.destroy, ht, Finset.mem_union, Finset.mem_filter]
    exact Or.inr ⟨htm, hne⟩
  · intro hd hdm hne
    simp only [Server.destroy, hh, Finset.mem_union, Finset.mem_filter]
    exact Or.inl (Or.inr ⟨hdm, hne⟩)

/-- C9 fails as stated: with one registered connection (handler 1, thread 2),
`Server::shutdown` stops the listening but leaves both sets non-empty and asks no
thread to quit. -/
theorem C9_counterexample :
    ((Server.new true).incomingConnection 1 2).shutdown.listening = false ∧
    ((Server.new true).incomingConnection 1 2).shutdown.activeHandlers ≠ ∅ ∧
    ((Server.new true).incomingConnection 1 2).shutdown.activeThreads ≠ ∅ ∧
    ((Server.new true).incomingConnection 1 2).shutdown.quitRequested = ∅ := by
  decide

/-! ## The two read paths on a zero header (C10) -/

/-- C10, evaluated at the failing input: the stream is the single chunk `0, 0`, a
header that declares 0 bytes.  The server removes the header, decodes nothing and
stays connected; the client takes the zero it has just read for "no header yet
pending", does not wait, reads a string from the empty socket, and aborts with "read
error (payload)". -/
theorem C10_zero_header_divergence :
    (startedHandler 7).feed [[0, 0]] = some (startedHandler 7) ∧
    connectedClient.deliverAll [[0, 0]] =
      some { socket := .unconnected, available := [], written := [], blockSize := 0,
             signals := [.disconnected, .errorOccurred .readPayload] } := by
  decide

end TcpFraming
